import Mathlib

/-!
Verification of the `puchai_Tech_Translator` tool server.

The repository ships two near-duplicate variants of one script.  The variant
under `src/mcp_starter.py` contains the auth provider (`load_access_token`),
the fetch utility (`fetch_url`, `google_search_links`) and a `tech_translator`
tool; the refined variant with the response-sectioning logic is described by
the specification but its file is not present, so the sectioning core is
modelled from the specification text and everything else is embedded from
`src/mcp_starter.py`.
-/

namespace TechTranslator

/-- Modelled from the spec: Python `\s` whitespace class used by the marker
pattern and by `str.strip` (space, tab, newline, carriage return, vertical
tab, form feed). -/
def isSpace (c : Char) : Bool :=
  c = ' ' || c = '\t' || c = '\n' || c = '\r' || c = '\x0b' || c = '\x0c'

/-- Modelled from the spec: `str.strip` — drop leading and trailing
whitespace from a character list. -/
def trimChars (cs : List Char) : List Char :=
  ((cs.dropWhile isSpace).reverse.dropWhile isSpace).reverse

/-- Helper for the marker pattern: match one-or-more characters satisfying
`p` greedily at the head of the list; on success return the remainder. -/
def dropWhile1 (p : Char → Bool) : List Char → Option (List Char)
  | [] => none
  | c :: cs => if p c then some (cs.dropWhile p) else none

/-- Modelled from the spec: the marker core `\d+\.\s+` — one or more decimal
digits, a period, then one or more whitespace characters, matched greedily at
the head of the list; on success return the remainder after the marker. -/
def markerCore (cs : List Char) : Option (List Char) :=
  match dropWhile1 Char.isDigit cs with
  | none => none
  | some cs1 =>
    match cs1 with
    | '.' :: cs2 => dropWhile1 isSpace cs2
    | _ => none

/-- Modelled from the spec: the full marker pattern with its optional leading
newline, matched at the head of the list. -/
def markerAt (cs : List Char) : Option (List Char) :=
  match cs with
  | '\n' :: rest => markerCore rest
  | _ => markerCore cs

/-- Does the text contain a digit-dot-space marker sequence anywhere, i.e.
does the marker core match at some position? -/
def containsMarker : List Char → Bool
  | [] => (markerCore []).isSome
  | c :: cs => (markerCore (c :: cs)).isSome || containsMarker cs

/-- Modelled from the spec: left-to-right scan splitting the input at each
leftmost marker occurrence, as `re.split` does.  `fuel` bounds the number of
scanning steps; each step consumes at least one character, so fuel equal to
the input length (as supplied by `splitMarkers`) always suffices and the
fuel-exhaustion branch is unreachable. -/
def splitGo : Nat → List Char → List Char → List (List Char)
  | _, acc, [] => [acc.reverse]
  | 0, acc, cs => [acc.reverse ++ cs]
  | fuel + 1, acc, c :: cs =>
    match markerAt (c :: cs) with
    | some rest => acc.reverse :: splitGo fuel [] rest
    | none => splitGo fuel (c :: acc) cs

/-- Modelled from the spec: split the raw text on every marker occurrence,
yielding the ordered fragment sequence. -/
def splitMarkers (cs : List Char) : List (List Char) :=
  splitGo cs.length [] cs

/-- The four canonical section titles, in their fixed order. -/
def canonicalTitles : List String :=
  ["Plain-English", "TL;DR", "ELI5", "Visual-diagram"]

/-- A labeled section: a canonical title paired with a trimmed body. -/
structure Sec where
  title : String
  body : String
deriving DecidableEq, Repr

/-- Modelled from the spec: walk the fragments in order, pairing fragment `i`
with canonical title `i`; a fragment whose trimmed body is empty is skipped
(its index is still consumed), and pairing stops when either list runs out. -/
def pairSections : List (List Char) → List String → List Sec
  | _, [] => []
  | [], _ => []
  | f :: fs, t :: ts =>
    let b := trimChars f
    if b.isEmpty then pairSections fs ts
    else ⟨t, String.mk b⟩ :: pairSections fs ts

/-- Modelled from the spec: the response sectioner `section(raw)` (named
`sectionize` because `section` is reserved in Lean).  Split on markers,
discard the leading fragment when its trimmed form is empty, then pair the
surviving fragments positionally with the canonical titles. -/
def sectionize (s : String) : List Sec :=
  let frags := splitMarkers s.data
  let frags2 :=
    match frags with
    | [] => []
    | f :: rest => if (trimChars f).isEmpty then rest else f :: rest
  pairSections frags2 canonicalTitles

/-- Modelled from the spec: the tool output for a raw response — one text
item per emitted section, the item text being the canonical title and the
body joined by a line break. -/
def tech_translator (raw : String) : List String :=
  (sectionize raw).map (fun sec => sec.title ++ "\n" ++ sec.body)

/-- The access token record produced on a successful bearer check, embedded
from `AccessToken` as constructed at `src/mcp_starter.py:45`. -/
structure AccessToken where
  token : String
  client_id : String
  scopes : List String
  expires_at : Option Nat
deriving DecidableEq, Repr

/-- Embeds `SimpleBearerAuthProvider.load_access_token`
(`src/mcp_starter.py:43-46`): return a wildcard-scope token for the
`puch-client` exactly when the presented token equals the configured one. -/
def load_access_token (selfToken token : String) : Option AccessToken :=
  if token = selfToken then
    some ⟨token, "puch-client", ["*"], none⟩
  else
    none

/-- The HTTP request issued by the fetch utility: URL, user agent, redirect
policy and timeout, as passed to `client.get` at `src/mcp_starter.py:62`. -/
structure HttpRequest where
  url : String
  userAgent : String
  followRedirects : Bool
  timeout : Nat
deriving DecidableEq, Repr

/-- Outcome of an HTTP round trip as the fetch utility distinguishes it:
either a transport-level error or a response with status code, content type
and body. -/
inductive HttpOutcome where
  | httpError (msg : String)
  | response (status : Nat) (contentType : String) (body : String)
deriving DecidableEq, Repr

/-- The concrete request `Fetch.fetch_url` builds for a given URL and user
agent: redirects followed, timeout 30 (`src/mcp_starter.py:62`). -/
def fetchRequest (url userAgent : String) : HttpRequest :=
  ⟨url, userAgent, true, 30⟩

/-- Prefix test on character lists, used by the substring check. -/
def prefixAt : List Char → List Char → Bool
  | [], _ => true
  | _ :: _, [] => false
  | a :: as, b :: bs => a = b && prefixAt as bs

/-- Substring search on character lists: does `needle` occur at some
position of `hay`? -/
def hasSubstr (needle : List Char) : List Char → Bool
  | [] => prefixAt needle []
  | c :: cs => prefixAt needle (c :: cs) || hasSubstr needle cs

/-- Python substring membership `needle in hay`. -/
def containsSubstr (needle hay : String) : Bool :=
  hasSubstr needle.data hay.data

/-- Embeds `Fetch.fetch_url` (`src/mcp_starter.py:59-76`).  The network layer
is abstracted as `client`, a function from the issued request to its outcome;
`extractContent` abstracts `extract_content_from_html`.  Raised `McpError`s
become `Except.error`. -/
def fetch_url (client : HttpRequest → HttpOutcome) (url userAgent : String)
    (forceRaw : Bool) (extractContent : String → String) :
    Except String (String × String) :=
  match client (fetchRequest url userAgent) with
  | .httpError e => .error ("Failed to fetch " ++ url ++ ": " ++ e)
  | .response status contentType body =>
    if 400 ≤ status then
      .error ("Failed to fetch " ++ url ++ " - status code " ++ toString status)
    else if containsSubstr "text/html" contentType && !forceRaw then
      .ok (extractContent body, "")
    else
      .ok (body, "Content type " ++ contentType ++
        " cannot be simplified to markdown, but here is the raw content:\n")

/-- Embeds the link-collecting loop of `Fetch.google_search_links`
(`src/mcp_starter.py:96-101`): walk the result anchors in document order,
append each href containing "http", and stop as soon as the collected list
reaches `numResults`. -/
def searchLoop (numResults : Nat) : List String → List String → List String
  | links, [] => links
  | links, href :: rest =>
    let links2 := if containsSubstr "http" href then links ++ [href] else links
    if numResults ≤ links2.length then links2
    else searchLoop numResults links2 rest

/-- Embeds `Fetch.google_search_links` (`src/mcp_starter.py:85-102`).  The
HTTP layer and the HTML parse are abstracted: `status` is the response status
code and `anchors` the hrefs of the `result__a` anchors in document order. -/
def google_search_links (status : Nat) (anchors : List String)
    (numResults : Nat) : List String :=
  if status ≠ 200 then ["<error>Failed to perform search.</error>"]
  else
    let links := searchLoop numResults [] anchors
    if links.isEmpty then ["<error>No results found.</error>"]
    else links

/-! Helper lemmas about the sectioner. -/

lemma pairSections_title_sublist (fs : List (List Char)) (ts : List String) :
    ((pairSections fs ts).map Sec.title).Sublist ts := by
  induction fs generalizing ts with
  | nil => cases ts <;> simp [pairSections]
  | cons f fs ih =>
    cases ts with
    | nil => simp [pairSections]
    | cons t ts =>
      simp only [pairSections]
      split
      · exact (ih ts).cons t
      · simpa using (ih ts).cons₂ t

lemma pairSections_length_le (fs : List (List Char)) (ts : List String) :
    (pairSections fs ts).length ≤ ts.length := by
  have h := (pairSections_title_sublist fs ts).length_le
  simpa using h

lemma sectionize_title_sublist (s : String) :
    ((sectionize s).map Sec.title).Sublist canonicalTitles := by
  unfold sectionize
  exact pairSections_title_sublist _ _

lemma sectionize_length_le (s : String) : (sectionize s).length ≤ 4 := by
  have h := (sectionize_title_sublist s).length_le
  simpa [canonicalTitles] using h

lemma sectionize_title_mem {s : String} {sec : Sec} (h : sec ∈ sectionize s) :
    sec.title ∈ canonicalTitles :=
  (sectionize_title_sublist s).subset (List.mem_map_of_mem Sec.title h)

lemma isSpace_isDigit_eq_false {c : Char} (h : isSpace c = true) :
    c.isDigit = false := by
  simp only [isSpace, Bool.or_eq_true, decide_eq_true_eq] at h
  rcases h with ((((rfl | rfl) | rfl) | rfl) | rfl) | rfl <;> decide

lemma containsMarker_eq_false_head {c : Char} {cs : List Char}
    (h : containsMarker (c :: cs) = false) :
    markerCore (c :: cs) = none ∧ containsMarker cs = false := by
  simp only [containsMarker, Bool.or_eq_false_iff] at h
  exact ⟨Option.not_isSome_iff_eq_none.mp (by simp [h.1]), h.2⟩

lemma markerCore_eq_none_of_containsMarker {cs : List Char}
    (h : containsMarker cs = false) : markerCore cs = none := by
  cases cs with
  | nil => rfl
  | cons c cs => exact (containsMarker_eq_false_head h).1

lemma markerAt_eq_none_of_containsMarker {cs : List Char}
    (h : containsMarker cs = false) : markerAt cs = none := by
  match cs, h with
  | [], h => rfl
  | '\n' :: rest, h =>
    show markerCore rest = none
    exact markerCore_eq_none_of_containsMarker (containsMarker_eq_false_head h).2
  | c :: rest, h =>
    have hc := (containsMarker_eq_false_head h).1
    simp only [markerAt]
    split
    · next heq =>
      cases heq
      exact markerCore_eq_none_of_containsMarker (containsMarker_eq_false_head h).2
    · exact hc

lemma splitGo_no_marker (fuel : Nat) (acc cs : List Char)
    (hfuel : cs.length ≤ fuel) (h : containsMarker cs = false) :
    splitGo fuel acc cs = [acc.reverse ++ cs] := by
  induction fuel generalizing acc cs with
  | zero =>
    have : cs = [] := List.length_eq_zero.mp (Nat.le_zero.mp hfuel)
    subst this
    simp [splitGo]
  | succ fuel ih =>
    cases cs with
    | nil => simp [splitGo]
    | cons c cs =>
      have hnone : markerAt (c :: cs) = none :=
        markerAt_eq_none_of_containsMarker h
      have htail : containsMarker cs = false := (containsMarker_eq_false_head h).2
      simp only [splitGo, hnone]
      rw [ih (c :: acc) cs (by simpa using Nat.le_of_succ_le_succ hfuel) htail]
      simp

lemma splitMarkers_no_marker {cs : List Char} (h : containsMarker cs = false) :
    splitMarkers cs = [cs] := by
  unfold splitMarkers
  simpa using splitGo_no_marker cs.length [] cs le_rfl h

lemma sectionize_no_marker (s : String) (h : containsMarker s.data = false) :
    sectionize s =
      if (trimChars s.data).isEmpty then []
      else [⟨"Plain-English", String.mk (trimChars s.data)⟩] := by
  unfold sectionize
  rw [splitMarkers_no_marker h]
  split
  · next hempty =>
    simp [hempty, pairSections]
  · next hempty =>
    simp only [canonicalTitles, pairSections, hempty, if_neg (by simpa using hempty)]
    simp [hempty]

lemma searchLoop_length_le (numResults : Nat) (anchors links : List String)
    (h : links.length < numResults) :
    (searchLoop numResults links anchors).length ≤ numResults := by
  induction anchors generalizing links with
  | nil => simpa [searchLoop] using Nat.le_of_lt h
  | cons href rest ih =>
    simp only [searchLoop]
    set links2 := if containsSubstr "http" href then links ++ [href] else links
      with hlinks2
    have hlen2 : links2.length ≤ links.length + 1 := by
      rw [hlinks2]
      split <;> simp
    split
    · exact Nat.le_trans hlen2 h
    · next hlt => exact ih links2 (Nat.lt_of_not_le hlt)

lemma containsMarker_all_space {cs : List Char}
    (h : ∀ c ∈ cs, isSpace c = true) : containsMarker cs = false := by
  induction cs with
  | nil => rfl
  | cons c cs ih =>
    have hd : c.isDigit = false := isSpace_isDigit_eq_false (h c (by simp))
    have hcore : markerCore (c :: cs) = none := by
      simp [markerCore, dropWhile1, hd]
    simp [containsMarker, hcore, ih (fun x hx => h x (by simp [hx]))]

lemma trimChars_all_space {cs : List Char}
    (h : ∀ c ∈ cs, isSpace c = true) : trimChars cs = [] := by
  unfold trimChars
  rw [List.dropWhile_eq_nil_iff.mpr h]
  simp

example : sectionize "1. Foo\n2. Bar\n3. Baz\n4. Qux" =
    [⟨"Plain-English", "Foo"⟩, ⟨"TL;DR", "Bar"⟩, ⟨"ELI5", "Baz"⟩,
      ⟨"Visual-diagram", "Qux"⟩] := by decide

example : sectionize "hello world" = [⟨"Plain-English", "hello world"⟩] := by
  decide

/-- C1: every item the tool emits for a raw response is one canonical title
joined to its body by a line break, and the output is not simply the raw
response returned verbatim as a single item. -/
theorem c1_output_is_sectioned :
    (∀ raw item, item ∈ tech_translator raw →
      ∃ sec, sec ∈ sectionize raw ∧ sec.title ∈ canonicalTitles ∧
        item = sec.title ++ "\n" ++ sec.body) ∧
    tech_translator "1. Foo\n2. Bar" ≠ ["1. Foo\n2. Bar"] := by
  constructor
  · intro raw item h
    simp only [tech_translator, List.mem_map] at h
    obtain ⟨sec, hsec, rfl⟩ := h
    exact ⟨sec, hsec, sectionize_title_mem hsec, rfl⟩
  · decide

/-- Witness for C1 at the input "1. Foo" and its single output item. -/
theorem c1_output_is_sectioned_witness :
    ∃ sec, sec ∈ sectionize "1. Foo" ∧ sec.title ∈ canonicalTitles ∧
      "Plain-English\nFoo" = sec.title ++ "\n" ++ sec.body :=
  c1_output_is_sectioned.1 "1. Foo" "Plain-English\nFoo" (by decide)

/-- C2: every output has at most four sections, titles drawn without
repetition from the canonical list in canonical order, and a fifth
marker-delimited fragment is silently dropped. -/
theorem c2_section_invariants :
    (∀ s, ((sectionize s).map Sec.title).Sublist canonicalTitles ∧
      ((sectionize s).map Sec.title).Nodup ∧ (sectionize s).length ≤ 4) ∧
    sectionize "1. a\n2. b\n3. c\n4. d\n5. e" =
      [⟨"Plain-English", "a"⟩, ⟨"TL;DR", "b"⟩, ⟨"ELI5", "c"⟩,
        ⟨"Visual-diagram", "d"⟩] := by
  refine ⟨fun s => ⟨sectionize_title_sublist s, ?_, sectionize_length_le s⟩,
    by decide⟩
  exact ((sectionize_title_sublist s).nodup (by decide))

/-- C3: on input with no digit-dot-space marker the sectioner returns a
single Plain-English section carrying the trimmed input, or nothing when the
trimmed input is empty. -/
theorem c3_no_marker (s : String) (h : containsMarker s.data = false) :
    sectionize s =
      if (trimChars s.data).isEmpty then []
      else [⟨"Plain-English", String.mk (trimChars s.data)⟩] :=
  sectionize_no_marker s h

/-- Witness for C3 at the marker-free input "hello world". -/
theorem c3_no_marker_witness :
    sectionize "hello world" =
      if (trimChars "hello world".data).isEmpty then []
      else [⟨"Plain-English", String.mk (trimChars "hello world".data)⟩] :=
  c3_no_marker "hello world" (by decide)

/-- C4: whitespace-only input yields zero sections, and in particular the
empty string does. -/
theorem c4_whitespace_empty :
    (∀ s, (∀ c ∈ s.data, isSpace c = true) → sectionize s = []) ∧
    sectionize "" = [] := by
  refine ⟨fun s hs => ?_, by decide⟩
  rw [sectionize_no_marker s (containsMarker_all_space hs)]
  simp [trimChars_all_space hs]

/-- Witness for C4 at a whitespace-only input. -/
theorem c4_whitespace_empty_witness : sectionize " \n\t " = [] :=
  c4_whitespace_empty.1 " \n\t " (by decide)

/-- C5: on "1. Foo\n2. \n3. Baz" exactly two sections come out, and the
third fragment still maps positionally to ELI5 even though the empty second
fragment is dropped. -/
theorem c5_positional_mapping :
    sectionize "1. Foo\n2. \n3. Baz" =
      [⟨"Plain-English", "Foo"⟩, ⟨"ELI5", "Baz"⟩] := by decide

/-- C6: the sectioner is total — every input string produces some (possibly
empty) output of at most four sections, with no error path. -/
theorem c6_total (s : String) :
    ∃ out : List Sec, sectionize s = out ∧ out.length ≤ 4 :=
  ⟨sectionize s, rfl, sectionize_length_le s⟩

/-- C7: the fetch utility issues exactly one request per invocation, that
request carries a timeout of 30 seconds, and the result depends on the
network only through that request. -/
theorem c7_fetch_timeout :
    (∀ url ua, (fetchRequest url ua).timeout = 30) ∧
    (∀ c₁ c₂ url ua fr ex,
      c₁ (fetchRequest url ua) = c₂ (fetchRequest url ua) →
      fetch_url c₁ url ua fr ex = fetch_url c₂ url ua fr ex) := by
  refine ⟨fun url ua => rfl, fun c₁ c₂ url ua fr ex h => ?_⟩
  unfold fetch_url
  rw [h]

/-- Witness for C7 at a concrete URL, user agent and client. -/
theorem c7_fetch_timeout_witness :
    (fetchRequest "u" "a").timeout = 30 ∧
    fetch_url (fun _ => HttpOutcome.httpError "e") "u" "a" false id =
      fetch_url (fun _ => HttpOutcome.httpError "e") "u" "a" false id :=
  ⟨c7_fetch_timeout.1 "u" "a",
    c7_fetch_timeout.2 (fun _ => HttpOutcome.httpError "e")
      (fun _ => HttpOutcome.httpError "e") "u" "a" false id rfl⟩

/-- C8: the sectioner is deterministic — two calls on the same input agree. -/
theorem c8_deterministic (s : String) : sectionize s = sectionize s := rfl

/-- C9: the bearer auth check accepts exactly the configured token, returning
the puch-client wildcard-scope access token, and rejects every other string
with none. -/
theorem c9_bearer_auth (cfg t : String) :
    (load_access_token cfg t = some ⟨t, "puch-client", ["*"], none⟩ ↔
      t = cfg) ∧
    (t ≠ cfg → load_access_token cfg t = none) := by
  refine ⟨⟨fun h => ?_, fun h => ?_⟩, fun h => ?_⟩
  · by_contra hne
    simp [load_access_token, hne] at h
  · subst h
    simp [load_access_token]
  · simp [load_access_token, h]

/-- Witness for C9: the configured token is accepted, a different one is
rejected. -/
theorem c9_bearer_auth_witness :
    load_access_token "secret" "secret" =
      some ⟨"secret", "puch-client", ["*"], none⟩ ∧
    load_access_token "secret" "guess" = none :=
  ⟨(c9_bearer_auth "secret" "secret").1.mpr rfl,
    (c9_bearer_auth "secret" "guess").2 (by decide)⟩

/-- C10: for any positive result budget the search helper returns a
non-empty list of at most that many strings, falling back to a one-element
error sentinel on a non-200 status or when no links are collected. -/
theorem c10_search_links (status numResults : Nat) (anchors : List String)
    (h : 1 ≤ numResults) :
    google_search_links status anchors numResults ≠ [] ∧
    (google_search_links status anchors numResults).length ≤ numResults ∧
    (status ≠ 200 → google_search_links status anchors numResults =
      ["<error>Failed to perform search.</error>"]) ∧
    (status = 200 → searchLoop numResults [] anchors = [] →
      google_search_links status anchors numResults =
        ["<error>No results found.</error>"]) := by
  by_cases hst : status = 200
  · by_cases hl : (searchLoop numResults [] anchors).isEmpty
    · have hG : google_search_links status anchors numResults =
          ["<error>No results found.</error>"] := by
        simp [google_search_links, hst, hl]
      rw [hG]
      exact ⟨by simp, by simpa using h, fun hc => absurd hst hc,
        fun _ _ => rfl⟩
    · have hG : google_search_links status anchors numResults =
          searchLoop numResults [] anchors := by
        simp [google_search_links, hst, hl]
      rw [hG]
      refine ⟨by simpa using hl,
        searchLoop_length_le numResults anchors [] (by simpa using h),
        fun hc => absurd hst hc, fun _ hnil => ?_⟩
      rw [hnil] at hl
      simp at hl
  · have hG : google_search_links status anchors numResults =
        ["<error>Failed to perform search.</error>"] := by
      simp [google_search_links, hst]
    rw [hG]
    exact ⟨by simp, by simpa using h, fun _ => rfl, fun hc => absurd hc hst⟩

/-- Witness for C10 at status 200, no anchors, budget one. -/
theorem c10_search_links_witness :
    google_search_links 200 [] 1 ≠ [] ∧
    (google_search_links 200 [] 1).length ≤ 1 ∧
    (200 ≠ 200 → google_search_links 200 [] 1 =
      ["<error>Failed to perform search.</error>"]) ∧
    (200 = 200 → searchLoop 1 [] [] = [] →
      google_search_links 200 [] 1 = ["<error>No results found.</error>"]) :=
  c10_search_links 200 1 [] (by decide)

end TechTranslator
